import Mathlib

/-
Verification of the periodic-scheduler core of the `every` command runner.

The development shallowly embeds the three source modules:
  * `src/tick.rs`   — the Ticker loop (`tick`), modelled as an explicit
    iteration `tickTrace` over a state `TickState`, with time as `Nat`
    milliseconds, an exact `sleep`, and the duration of the n-th callback
    invocation given by a function `d : Nat → Nat`;
  * `src/main.rs`   — the Launcher (`run`): the per-tick decision `onTick`,
    the per-invocation thread body `invocationEvents` (its effects on the
    shared counter and the error stream as an event list), and a step
    relation `Step` over the shared state `SysState` describing the
    interleaving of ticks, invocation starts and exits;
  * `src/args.rs`   — command-line parsing (`parse_interval_as_ms`,
    `parse_concurrency`, `Action.parse_iter`), with Rust strings embedded
    as `List Char` and the anchored interval regex realised by the
    deterministic matcher `regexCaptures`.
-/

namespace Every

/-! Section: Ticker state and step — from `src/tick.rs`

The Rust source:

  let mut next_tick = Instant::now() + interval;
  loop {
      function();
      let now = Instant::now();
      if next_tick > now {
          let sleep_duration = next_tick.duration_since(now);
          thread::sleep(sleep_duration);
          next_tick = next_tick + interval;
      } else {
          // we were not fast enough, reschedule the next tick from now
          next_tick = now + interval;
      }
  }

`TickState.start` is the instant at which `function()` is invoked in the
current loop iteration; `TickState.nextTick` is the value of `next_tick`
at that moment.  `tickStep` computes the state of the following iteration,
assuming `thread::sleep` sleeps exactly the requested duration. -/

structure TickState where
  start : Nat
  nextTick : Nat

/-- One iteration of the `loop` in `tick`, where `dur` is the duration of
the `function()` call of this iteration, so `st.start + dur` is `now`. -/
def tickStep (interval dur : Nat) (st : TickState) : TickState :=
  if st.start + dur < st.nextTick then
    { start := st.nextTick, nextTick := st.nextTick + interval }
  else
    { start := st.start + dur, nextTick := st.start + dur + interval }

/-- The state of the n-th loop iteration of `tick`, started at instant `t0`
with callback durations `d`: iteration 0 invokes the callback at `t0` with
`next_tick = t0 + interval`. -/
def tickTrace (interval : Nat) (d : Nat → Nat) (t0 : Nat) : Nat → TickState
  | 0 => { start := t0, nextTick := t0 + interval }
  | n + 1 => tickStep interval (d n) (tickTrace interval d t0 n)

/-- A callback-duration function that stalls for 15 time units on the first
tick and returns instantly afterwards. -/
def stallDur : Nat → Nat
  | 0 => 15
  | _ + 1 => 0

/-- The everywhere-zero callback-duration function (an instant callback). -/
def zeroDur : Nat → Nat := fun _ => 0

/-! Section: Launcher — from `src/main.rs`

The tick callback in `run`:

  if child_count.load(Ordering::SeqCst) >= config.concurrency {
      return;
  }
  thread::spawn(move || { ... });

and the spawned thread body:

  let child = Command::new(..).spawn();
  let mut child = match child {
      Ok(child) => child,
      Err(e) => { eprintln!("Failed to start command: {e}"); return; }
  };
  child_count.fetch_add(1, Ordering::SeqCst);
  match child.wait() {
      Ok(status) => { if !status.success() { eprintln!("Command exited with {status}"); } }
      Err(e) => { eprintln!("Error checking child process status: {e}"); }
  }
  child_count.fetch_sub(1, Ordering::SeqCst);
-/

/-- Outcome of `child.wait()`: either an exit status (with its `success()`
bit and its display text), or a wait error with its display text. -/
inductive WaitOutcome where
  | ok (success : Bool) (status : List Char)
  | err (cause : List Char)

/-- Outcome of `Command::spawn()` for one invocation, carrying the eventual
wait outcome when the spawn succeeds. -/
inductive SpawnOutcome where
  | ok (w : WaitOutcome)
  | err (cause : List Char)

/-- Observable effects of an invocation thread: updates of the shared
`child_count` and lines printed to stderr. -/
inductive Ev where
  | inc
  | dec
  | reportStartFail (cause : List Char)
  | reportExitStatus (status : List Char)
  | reportWaitErr (cause : List Char)

/-- Effects of the `match child.wait()` block in the invocation thread. -/
def waitEvents : WaitOutcome → List Ev
  | .ok success status => if success then [] else [.reportExitStatus status]
  | .err cause => [.reportWaitErr cause]

/-- Effects of one invocation thread body, in program order: a failed spawn
only reports and returns; a successful spawn increments the counter, waits,
possibly reports, and finally decrements the counter. -/
def invocationEvents : SpawnOutcome → List Ev
  | .err cause => [.reportStartFail cause]
  | .ok w => .inc :: (waitEvents w ++ [.dec])

/-- Counts the events satisfying `p` in an effect list. -/
def countEv (p : Ev → Bool) (es : List Ev) : Nat := (es.filter p).length

/-- Recognizer for the counter-increment event. -/
def isIncEv : Ev → Bool
  | .inc => true
  | _ => false

/-- Recognizer for the counter-decrement event. -/
def isDecEv : Ev → Bool
  | .dec => true
  | _ => false

/-- Shared launcher state: `count` is the value of the atomic `child_count`;
`pending` is the number of invocation threads that have been spawned by a
tick but have not yet executed their spawn/`fetch_add` (launch decisions not
yet committed to the counter). -/
structure SysState where
  count : Nat
  pending : Nat

/-- The tick callback of `run`: if `child_count >= concurrency` it returns
without doing anything; otherwise it spawns exactly one invocation thread
(one more pending launch) and returns without touching the counter. -/
def onTick (limit : Nat) (s : SysState) : SysState :=
  if limit ≤ s.count then s else { count := s.count, pending := s.pending + 1 }

/-- Interleaving semantics of the launcher: a tick decision, a pending
invocation committing a successful start (`fetch_add`), a pending invocation
failing to spawn, or a started invocation exiting (`fetch_sub`). -/
inductive Step (limit : Nat) : SysState → SysState → Prop
  | tick (s : SysState) : Step limit s (onTick limit s)
  | startOk (c p : Nat) : Step limit ⟨c, p + 1⟩ ⟨c + 1, p⟩
  | startFail (c p : Nat) : Step limit ⟨c, p + 1⟩ ⟨c, p⟩
  | exit (c p : Nat) : Step limit ⟨c + 1, p⟩ ⟨c, p⟩

/-- States reachable from the initial state (`child_count = 0`, no pending
launches) along traces in which at most `k` launch decisions are ever
simultaneously uncommitted — `k` bounds the launches that can race within
one tick-callback duration. -/
inductive ReachableK (limit k : Nat) : SysState → Prop
  | init : ReachableK limit k ⟨0, 0⟩
  | step {s t : SysState} : ReachableK limit k s → Step limit s t →
      t.pending ≤ k → ReachableK limit k t

/-! Section: Argument parsing — from `src/args.rs`

Rust strings are embedded as `List Char`.  The anchored regex

  ^(?:([0-9]+)d)?(?:([0-9]+)h)?(?:([0-9]+)m)?(?:([0-9]+)(?:\.([0-9]+))?s)?$

is realised by the deterministic matcher `regexCaptures`: each optional
group is a nonempty digit run followed by its distinguishing unit letter,
so greedy left-to-right matching recognises exactly the regex language. -/

/-- Splits off the longest leading run of decimal digits. -/
def takeDigits : List Char → List Char × List Char
  | [] => ([], [])
  | c :: cs =>
    if c.isDigit then
      match takeDigits cs with
      | (ds, rest) => (c :: ds, rest)
    else ([], c :: cs)

/-- Decimal value of a digit string, as produced by the Rust `str::parse`
on a `[0-9]+` match (before the u64 range check). -/
def digitsVal (ds : List Char) : Nat :=
  ds.foldl (fun a c => a * 10 + (c.toNat - ('0').toNat)) 0

/-- Matches one optional regex group `(?:([0-9]+)u)?` for a unit letter
`u`, returning the captured digits (if the group matched) and the rest of
the input. -/
def matchComp (u : Char) (cs : List Char) : Option (List Char) × List Char :=
  match takeDigits cs with
  | ([], _) => (none, cs)
  | (d :: ds, rest) =>
    match rest with
    | [] => (none, cs)
    | r :: rest2 => if r = u then (some (d :: ds), rest2) else (none, cs)

/-- Matches the optional seconds group `(?:([0-9]+)(?:\.([0-9]+))?s)?`,
returning the seconds digits and the optional fraction digits. -/
def matchSeconds (cs : List Char) :
    Option (List Char × Option (List Char)) × List Char :=
  match takeDigits cs with
  | ([], _) => (none, cs)
  | (d :: ds, rest) =>
    match rest with
    | '.' :: rest2 =>
      (match takeDigits rest2 with
       | ([], _) => (none, cs)
       | (f :: fs, rest3) =>
         match rest3 with
         | 's' :: rest4 => (some (d :: ds, some (f :: fs)), rest4)
         | _ => (none, cs))
    | 's' :: rest2 => (some (d :: ds, none), rest2)
    | _ => (none, cs)

/-- Capture groups of the interval regex: days, hours, minutes, and the
seconds group with its optional fraction. -/
abbrev SecCap := Option (List Char × Option (List Char))

/-- Runs the anchored interval regex, returning the captures of groups
1–5 when the whole input matches. -/
def regexCaptures (cs : List Char) :
    Option (Option (List Char) × Option (List Char) × Option (List Char) × SecCap) :=
  match matchComp 'd' cs with
  | (d, cs1) =>
    match matchComp 'h' cs1 with
    | (h, cs2) =>
      match matchComp 'm' cs2 with
      | (m, cs3) =>
        match matchSeconds cs3 with
        | (sec, cs4) =>
          if cs4.isEmpty then some (d, h, m, sec) else none

/-- Capture group 4 (the seconds digits) of the seconds match. -/
def sCap : SecCap → Option (List Char)
  | some (s, _) => some s
  | none => none

/-- Capture group 5 (the fraction digits) of the seconds match. -/
def fCap : SecCap → Option (List Char)
  | some (_, f) => f
  | none => none

/-- One past the largest value representable in a `u64`. -/
def u64Bound : Nat := 2 ^ 64

/-- Parses an optional `[0-9]+` capture as a `u64`: 0 when the group did
not match, and `none` exactly when the number does not fit in `u64`. -/
def convert_match_to_u64 : Option (List Char) → Option Nat
  | some ds => if digitsVal ds < u64Bound then some (digitsVal ds) else none
  | none => some 0

/-- Parses the optional fraction capture as whole milliseconds: the digits
are right-padded with zeros to width 3 (`format!("{f:0<3}")`), and the
result is `none` exactly when the fraction has more than 3 digits. -/
def convert_fraction_match_to_ms_u64 : Option (List Char) → Option Nat
  | some f =>
    if f.length ≤ 3 then some (digitsVal (f ++ List.replicate (3 - f.length) '0'))
    else none
  | none => some 0

/-- Rust `u64::checked_mul`: `none` on overflow. -/
def checked_mul (a b : Nat) : Option Nat :=
  if a * b < u64Bound then some (a * b) else none

/-- Rust `u64::checked_add`: `none` on overflow. -/
def checked_add (a b : Nat) : Option Nat :=
  if a + b < u64Bound then some (a + b) else none

/-- The checked-arithmetic chain of `calculate_total_ms`:
`d?.checked_mul(86_400_000)?.checked_add(h?.checked_mul(3_600_000)?)?
 .checked_add(m?.checked_mul(60_000)?)?.checked_add(s?.checked_mul(1_000)?)?
 .checked_add(ms)` — `none` iff any argument is `none` or any step
overflows `u64`. -/
def calculate_total_ms (d h m s : Option Nat) (ms : Nat) : Option Nat :=
  d.bind fun dv =>
  (checked_mul dv 86400000).bind fun t1 =>
  h.bind fun hv =>
  (checked_mul hv 3600000).bind fun t2 =>
  (checked_add t1 t2).bind fun t3 =>
  m.bind fun mv =>
  (checked_mul mv 60000).bind fun t4 =>
  (checked_add t3 t4).bind fun t5 =>
  s.bind fun sv =>
  (checked_mul sv 1000).bind fun t6 =>
  (checked_add t5 t6).bind fun t7 =>
  checked_add t7 ms

/-- Error cases of `parse_interval_as_ms`; each constructor stands for the
corresponding Rust error message. -/
inductive IntervalError where
  | empty
  | maxPrecision (interval : List Char)
  | zero (interval : List Char)
  | tooLarge (interval : List Char)
  | unrecognized (interval : List Char)
deriving DecidableEq

/-- Embedding of `parse_interval_as_ms`: rejects the empty string, runs
the regex, converts the captures, and totals them with checked
arithmetic, rejecting a zero or overflowing total. -/
def parse_interval_as_ms (interval : List Char) : Except IntervalError Nat :=
  if interval.isEmpty then .error .empty
  else
    match regexCaptures interval with
    | none => .error (.unrecognized interval)
    | some (d, h, m, sec) =>
      match convert_fraction_match_to_ms_u64 (fCap sec) with
      | none => .error (.maxPrecision interval)
      | some msv =>
        match calculate_total_ms (convert_match_to_u64 d) (convert_match_to_u64 h)
            (convert_match_to_u64 m) (convert_match_to_u64 (sCap sec)) msv with
        | some 0 => .error (.zero interval)
        | some totalMs => .ok totalMs
        | none => .error (.tooLarge interval)

/-- Value denoted by an optional digit capture (0 when absent). -/
def matchVal : Option (List Char) → Nat
  | some ds => digitsVal ds
  | none => 0

/-- Number of digits of the optional fraction capture. -/
def fracLen : Option (List Char) → Nat
  | some f => f.length
  | none => 0

/-- Milliseconds denoted by the optional fraction capture (digits padded
to width 3). -/
def fracMsVal : Option (List Char) → Nat
  | some f => digitsVal (f ++ List.replicate (3 - f.length) '0')
  | none => 0

/-- Modelled from the spec: the total duration in whole milliseconds
denoted by a matched interval string — days, hours, minutes, seconds and
fraction-of-second captures converted at their usual ratios, computed in
unbounded arithmetic (the specification-side denotation against which the
checked-u64 implementation is compared). -/
def specTotalMs (d h m : Option (List Char)) (sec : SecCap) : Nat :=
  matchVal d * 86400000 + matchVal h * 3600000 + matchVal m * 60000 +
    matchVal (sCap sec) * 1000 + fracMsVal (fCap sec)

/-- Auxiliary for reasoning about `convert_match_to_u64` and the checked
chain: a `u64`-range-checked value. -/
def u64Opt (v : Nat) : Option Nat := if v < u64Bound then some v else none

/-- Result of the Rust `str::parse::<u16>`, distinguishing the positive
overflow error kind from the other error kinds. -/
inductive U16Parse where
  | ok (v : Nat)
  | posOverflow
  | invalid

/-- Embedding of `str::parse::<u16>`: an optional leading plus sign, then
a nonempty digit run; values above `u16::MAX` report positive overflow. -/
def parse_u16 (cs : List Char) : U16Parse :=
  match cs with
  | '+' :: rest => parse_u16_digits rest
  | _ => parse_u16_digits cs
where
  parse_u16_digits (digits : List Char) : U16Parse :=
    if digits.isEmpty then .invalid
    else if digits.all Char.isDigit then
      if digitsVal digits ≤ 65535 then .ok (digitsVal digits) else .posOverflow
    else .invalid

/-- Error cases of `Action::parse_iter`; each constructor stands for the
corresponding Rust error message. -/
inductive CliError where
  | invalidOption (arg : List Char)
  | interval (e : IntervalError)
  | missingCommand
  | invalidOptionAfterInterval (arg : List Char)
  | missingConcurrency
  | concurrencyOutOfRange (arg : List Char)
  | invalidConcurrencyValue (arg : List Char)
deriving DecidableEq

/-- Embedding of `parse_concurrency`: a parsed value in `1..=1000` is
accepted; out-of-range values and positive overflow report the range
error, any other parse failure reports the invalid-value error. -/
def parse_concurrency (concurrency : List Char) : Except CliError Nat :=
  match parse_u16 concurrency with
  | .ok v =>
    if 1 ≤ v ∧ v ≤ 1000 then .ok v else .error (.concurrencyOutOfRange concurrency)
  | .posOverflow => .error (.concurrencyOutOfRange concurrency)
  | .invalid => .error (.invalidConcurrencyValue concurrency)

/-- Embedding of the `Config` struct. -/
structure Config where
  interval_ms : Nat
  concurrency : Nat
  command : List Char
  args : List (List Char)
deriving DecidableEq

/-- Embedding of the `Action` enum. -/
inductive Action where
  | run (config : Config)
  | help
  | version
deriving DecidableEq

/-- The Rust `arg.starts_with` check against a single dash. -/
def startsWithDash : List Char → Bool
  | [] => false
  | c :: _ => c == '-'

/-- Embedding of `Action::parse_iter` over the argument list (after the
program name has been skipped): handles `-h`/`-v`, parses the interval,
the optional `-c` with its value (concurrency defaults to 1), the command
name, and collects the remaining arguments. -/
def parse_iter (args : List (List Char)) : Except CliError Action :=
  match args with
  | [] => .ok .help
  | arg :: rest =>
    if startsWithDash arg then
      if arg = ['-', 'h'] then .ok .help
      else if arg = ['-', 'v'] then .ok .version
      else .error (.invalidOption arg)
    else
      match parse_interval_as_ms arg with
      | .error e => .error (.interval e)
      | .ok interval_ms =>
        match rest with
        | [] => .error .missingCommand
        | arg2 :: rest2 =>
          if startsWithDash arg2 then
            if arg2 = ['-', 'c'] then
              match rest2 with
              | [] => .error .missingConcurrency
              | carg :: rest3 =>
                match parse_concurrency carg with
                | .error e => .error e
                | .ok concurrency =>
                  match rest3 with
                  | [] => .error .missingCommand
                  | command :: rest4 =>
                    .ok (.run { interval_ms := interval_ms, concurrency := concurrency,
                                command := command, args := rest4 })
            else .error (.invalidOptionAfterInterval arg2)
          else
            .ok (.run { interval_ms := interval_ms, concurrency := 1,
                        command := arg2, args := rest2 })

end Every

namespace Every

/-! Section: Ticker theorems -/

/-- Loop invariant of `tick`: at the instant the callback is invoked,
`next_tick` is exactly one interval later. -/
theorem tickTrace_nextTick (interval t0 : Nat) (d : Nat → Nat) (n : Nat) :
    (tickTrace interval d t0 n).nextTick = (tickTrace interval d t0 n).start + interval := by
  cases n with
  | zero => rfl
  | succ n =>
    show (tickStep interval (d n) (tickTrace interval d t0 n)).nextTick
      = (tickStep interval (d n) (tickTrace interval d t0 n)).start + interval
    unfold tickStep
    split <;> rfl

/-- Consecutive callback invocations are at least one interval apart. -/
theorem tickTrace_gap (interval t0 : Nat) (d : Nat → Nat) (n : Nat) :
    (tickTrace interval d t0 n).start + interval ≤ (tickTrace interval d t0 (n + 1)).start := by
  have hnt := tickTrace_nextTick interval t0 d n
  show _ ≤ (tickStep interval (d n) (tickTrace interval d t0 n)).start
  unfold tickStep
  split <;> dsimp only <;> omega

/-- Callback invocation times dominate `t0 + n * interval`. -/
theorem tickTrace_lower_bound (interval t0 : Nat) (d : Nat → Nat) (n : Nat) :
    t0 + n * interval ≤ (tickTrace interval d t0 n).start := by
  induction n with
  | zero => simp [tickTrace]
  | succ n ih =>
    have hg := tickTrace_gap interval t0 d n
    have : t0 + (n + 1) * interval = t0 + n * interval + interval := by ring
    omega

/-- Claim C1 (counterexample): with interval 10, origin 0 and a first
callback that runs for 15 > 10 time units, the second callback invocation
fires at instant 15 — not at 20, the smallest origin-aligned boundary at or
after `now = 15`, and not at any origin-aligned multiple of the interval.
The catch-up branch of `tick` re-anchors (`next_tick = now + interval`)
instead of advancing `next_tick` by repeated interval additions. -/
theorem tick_stall_counterexample :
    (tickTrace 10 stallDur 0 1).start = 15 ∧
    (tickTrace 10 stallDur 0 1).start % 10 ≠ 0 ∧
    (tickTrace 10 stallDur 0 1).start ≠ 20 := by
  refine ⟨rfl, ?_, ?_⟩ <;> decide

/-- Claim C1 (amended): when the callback overruns — `next_tick ≤ now` at
the post-callback check — the Ticker re-anchors: the next callback fires
immediately at `now` (the end of the overrunning callback), and `next_tick`
is reset to `now + interval`; skipped boundaries are never replayed, but the
schedule is anchored to `now`, not to the original origin. -/
theorem tick_reanchor (interval t0 n : Nat) (d : Nat → Nat)
    (hb : (tickTrace interval d t0 n).nextTick ≤ (tickTrace interval d t0 n).start + d n) :
    (tickTrace interval d t0 (n + 1)).start = (tickTrace interval d t0 n).start + d n ∧
    (tickTrace interval d t0 (n + 1)).nextTick
      = (tickTrace interval d t0 n).start + d n + interval := by
  show (tickStep interval (d n) (tickTrace interval d t0 n)).start = _ ∧
    (tickStep interval (d n) (tickTrace interval d t0 n)).nextTick = _
  unfold tickStep
  have hnot : ¬ ((tickTrace interval d t0 n).start + d n < (tickTrace interval d t0 n).nextTick) :=
    Nat.not_lt.mpr hb
  rw [if_neg hnot]
  exact ⟨rfl, rfl⟩

/-- Witness for `tick_reanchor` at interval 10, origin 0, first callback
duration 15. -/
theorem tick_reanchor_witness :
    (tickTrace 10 stallDur 0 1).start = (tickTrace 10 stallDur 0 0).start + stallDur 0 ∧
    (tickTrace 10 stallDur 0 1).nextTick
      = (tickTrace 10 stallDur 0 0).start + stallDur 0 + 10 :=
  tick_reanchor 10 0 0 stallDur (by decide)

/-- Claim C2: for every interval > 0 and every pair of consecutive callback
invocations of the tick loop, the later invocation starts at least one
interval after the earlier one — the callback never runs more often than
once per interval, and missed ticks are skipped, never fired in a burst. -/
theorem tick_min_gap (interval t0 : Nat) (d : Nat → Nat) (_hpos : 0 < interval) (n : Nat) :
    (tickTrace interval d t0 n).start + interval ≤ (tickTrace interval d t0 (n + 1)).start :=
  tickTrace_gap interval t0 d n

/-- Witness for `tick_min_gap` with interval 1 and an instant callback. -/
theorem tick_min_gap_witness :
    (tickTrace 1 zeroDur 0 0).start + 1 ≤ (tickTrace 1 zeroDur 0 1).start :=
  tick_min_gap 1 0 zeroDur (by decide) 0

/-- Claim C9: `tick` never returns — for every `n` the n-th loop iteration
exists and invokes the callback at an instant at least `t0 + n * interval`,
so with a positive interval the invocation instants grow without bound and
the loop diverges for every total callback. -/
theorem tick_diverges (interval t0 : Nat) (d : Nat → Nat) (_hpos : 0 < interval) (n : Nat) :
    t0 + n * interval ≤ (tickTrace interval d t0 n).start :=
  tickTrace_lower_bound interval t0 d n

/-- Witness for `tick_diverges` at interval 1, origin 0, iteration 3. -/
theorem tick_diverges_witness : 0 + 3 * 1 ≤ (tickTrace 1 zeroDur 0 3).start :=
  tick_diverges 1 0 zeroDur (by decide) 3

/-! Section: Launcher theorems -/

/-- Claim C3: the tick callback reads `child_count`; at or above the
concurrency limit it is a no-op, and below the limit it spawns exactly one
new invocation (one more pending launch) while leaving the counter
untouched — it returns without waiting for the invocation to start. -/
theorem onTick_policy (limit : Nat) (s : SysState) :
    (limit ≤ s.count → onTick limit s = s) ∧
    (s.count < limit → onTick limit s = { count := s.count, pending := s.pending + 1 }) := by
  constructor
  · intro h
    simp [onTick, h]
  · intro h
    simp [onTick, Nat.not_le.mpr h]

/-- Witness for `onTick_policy` at limit 1, in a full state and in an idle
state. -/
theorem onTick_policy_witness :
    onTick 1 ⟨1, 0⟩ = ⟨1, 0⟩ ∧ onTick 1 ⟨0, 0⟩ = ⟨0, 1⟩ :=
  ⟨(onTick_policy 1 ⟨1, 0⟩).1 (by decide), (onTick_policy 1 ⟨0, 0⟩).2 (by decide)⟩

/-- Claim C4: an invocation whose spawn succeeds increments `child_count`
exactly once and decrements it exactly once, whatever the wait outcome —
normal exit, abnormal exit, or a failure of the wait call itself. -/
theorem invocation_accounting (w : WaitOutcome) :
    countEv isIncEv (invocationEvents (.ok w)) = 1 ∧
    countEv isDecEv (invocationEvents (.ok w)) = 1 := by
  cases w with
  | ok success status =>
    cases success <;> simp [invocationEvents, waitEvents, countEv, isIncEv, isDecEv]
  | err cause =>
    simp [invocationEvents, waitEvents, countEv, isIncEv, isDecEv]

/-- Claim C6: when `child.wait()` itself fails, the error is reported on the
error stream and `child_count` is still decremented exactly once — the same
decrement count as on a normal successful exit. -/
theorem wait_error_still_decrements (cause status : List Char) :
    countEv isDecEv (invocationEvents (.ok (.err cause))) = 1 ∧
    Ev.reportWaitErr cause ∈ invocationEvents (.ok (.err cause)) ∧
    countEv isDecEv (invocationEvents (.ok (.err cause)))
      = countEv isDecEv (invocationEvents (.ok (.ok true status))) := by
  refine ⟨?_, ?_, ?_⟩ <;>
    simp [invocationEvents, waitEvents, countEv, isDecEv]

/-- Claim C7: when the spawn fails, the invocation thread reports the start
failure with its cause and ends there: the counter is neither incremented
nor decremented and nothing further is scheduled by this invocation. -/
theorem start_failure_no_accounting (cause : List Char) :
    invocationEvents (.err cause) = [.reportStartFail cause] ∧
    countEv isIncEv (invocationEvents (.err cause)) = 0 ∧
    countEv isDecEv (invocationEvents (.err cause)) = 0 := by
  refine ⟨rfl, ?_, ?_⟩ <;>
    simp [invocationEvents, countEv, isIncEv, isDecEv]

/-- Inductive invariant for the launcher interleavings: the counter plus the
pending launches stays below `limit + k`. -/
theorem reachableK_invariant {limit k : Nat} {s : SysState} (hl : 1 ≤ limit)
    (hr : ReachableK limit k s) : s.count + s.pending + 1 ≤ limit + k := by
  induction hr with
  | init =>
    show 0 + 0 + 1 ≤ limit + k
    omega
  | step hr hstep hp ih =>
    rename_i s1 t1
    cases hstep with
    | tick =>
      by_cases hc : limit ≤ s1.count
      · simpa [onTick, hc] using ih
      · simp only [onTick, if_neg hc] at hp ⊢
        omega
    | startOk c p => dsimp only at ih ⊢; omega
    | startFail c p => dsimp only at ih ⊢; omega
    | exit c p => dsimp only at ih ⊢; omega

/-- Claim C5: in every reachable interleaving of ticks, starts and exits in
which at most `k` launch decisions are simultaneously uncommitted (the
launches that can race within one tick-callback duration), the number of
live invocations `count` never exceeds `limit - 1 + k` — so the transient
overshoot over the limit is bounded by the racing launches, and with
`k = 1` the limit is never exceeded at all; moreover in any state at or
above the limit the tick decision is a no-op, so the overshoot is
self-correcting at the next decision. -/
theorem concurrency_bound {limit k : Nat} {s : SysState} (hl : 1 ≤ limit)
    (hr : ReachableK limit k s) :
    s.count ≤ limit - 1 + k ∧ (limit ≤ s.count → onTick limit s = s) := by
  have hinv := reachableK_invariant hl hr
  constructor
  · omega
  · intro h
    simp [onTick, h]

/-- Witness for `concurrency_bound` at limit 1, race bound 1, in the state
reached by one tick and one committed start. -/
theorem concurrency_bound_witness :
    (⟨1, 0⟩ : SysState).count ≤ 1 - 1 + 1 ∧
    (1 ≤ (⟨1, 0⟩ : SysState).count → onTick 1 ⟨1, 0⟩ = ⟨1, 0⟩) :=
  concurrency_bound (by decide)
    (.step (.step .init (.tick ⟨0, 0⟩) (by decide)) (.startOk 0 0) (by decide))

/-! Section: Argument-parsing theorems -/

/-- Unfolding lemma for the `u64` range check. -/
theorem u64Opt_eq_some {v w : Nat} : u64Opt v = some w ↔ w = v ∧ v < u64Bound := by
  unfold u64Opt
  split
  · simp only [Option.some.injEq]
    constructor
    · intro hw
      exact ⟨hw.symm, by assumption⟩
    · intro hw
      exact hw.1.symm
  · simp only [reduceCtorEq, false_iff, not_and]
    intro _
    assumption

/-- Unfolding lemma for `checked_mul`. -/
theorem checked_mul_eq_some {a b c : Nat} :
    checked_mul a b = some c ↔ c = a * b ∧ a * b < u64Bound := by
  unfold checked_mul
  split
  · simp only [Option.some.injEq]
    constructor
    · intro hw
      exact ⟨hw.symm, by assumption⟩
    · intro hw
      exact hw.1.symm
  · simp only [reduceCtorEq, false_iff, not_and]
    intro _
    assumption

/-- Unfolding lemma for `checked_add`. -/
theorem checked_add_eq_some {a b c : Nat} :
    checked_add a b = some c ↔ c = a + b ∧ a + b < u64Bound := by
  unfold checked_add
  split
  · simp only [Option.some.injEq]
    constructor
    · intro hw
      exact ⟨hw.symm, by assumption⟩
    · intro hw
      exact hw.1.symm
  · simp only [reduceCtorEq, false_iff, not_and]
    intro _
    assumption

/-- The capture conversion agrees with the range-checked denoted value. -/
theorem convert_match_eq (o : Option (List Char)) :
    convert_match_to_u64 o = u64Opt (matchVal o) := by
  cases o with
  | some ds => rfl
  | none =>
    have h0 : (0 : Nat) < u64Bound := by decide
    simp [convert_match_to_u64, matchVal, u64Opt, h0]

/-- The fraction conversion succeeds exactly on fractions of at most three
digits and returns the denoted padded millisecond value. -/
theorem convert_fraction_eq_some (f : Option (List Char)) (v : Nat) :
    convert_fraction_match_to_ms_u64 f = some v ↔ fracLen f ≤ 3 ∧ v = fracMsVal f := by
  cases f with
  | none => simp [convert_fraction_match_to_ms_u64, fracLen, fracMsVal, eq_comm]
  | some f =>
    by_cases hl : f.length ≤ 3 <;>
      simp [convert_fraction_match_to_ms_u64, fracLen, fracMsVal, hl, eq_comm]

/-- The fraction conversion fails exactly on fractions of more than three
digits. -/
theorem convert_fraction_eq_none (f : Option (List Char)) :
    convert_fraction_match_to_ms_u64 f = none ↔ ¬ fracLen f ≤ 3 := by
  cases f with
  | none => simp [convert_fraction_match_to_ms_u64, fracLen]
  | some f =>
    by_cases hl : f.length ≤ 3 <;>
      simp [convert_fraction_match_to_ms_u64, fracLen, hl]

/-- The checked chain of `calculate_total_ms` on range-checked captures
returns exactly the unbounded total, precisely when that total fits in
`u64`. -/
theorem calculate_total_ms_eq (D H M S msv t : Nat) :
    calculate_total_ms (u64Opt D) (u64Opt H) (u64Opt M) (u64Opt S) msv = some t ↔
      t = D * 86400000 + H * 3600000 + M * 60000 + S * 1000 + msv ∧ t < u64Bound := by
  constructor
  · intro hc
    simp only [calculate_total_ms, Option.bind_eq_some, u64Opt_eq_some, checked_mul_eq_some,
      checked_add_eq_some] at hc
    obtain ⟨dv, ⟨rfl, hD⟩, t1, ⟨rfl, h1⟩, hv, ⟨rfl, hH⟩, t2, ⟨rfl, h2⟩, t3, ⟨rfl, h3⟩,
      mv, ⟨rfl, hM⟩, t4, ⟨rfl, h4⟩, t5, ⟨rfl, h5⟩, sv, ⟨rfl, hS⟩, t6, ⟨rfl, h6⟩,
      t7, ⟨rfl, h7⟩, rfl, h8⟩ := hc
    exact ⟨by omega, h8⟩
  · rintro ⟨rfl, hlt⟩
    simp only [calculate_total_ms, Option.bind_eq_some, u64Opt_eq_some, checked_mul_eq_some,
      checked_add_eq_some]
    refine ⟨D, ⟨rfl, by omega⟩, D * 86400000, ⟨rfl, by omega⟩, H, ⟨rfl, by omega⟩,
      H * 3600000, ⟨rfl, by omega⟩, D * 86400000 + H * 3600000, ⟨rfl, by omega⟩,
      M, ⟨rfl, by omega⟩, M * 60000, ⟨rfl, by omega⟩,
      D * 86400000 + H * 3600000 + M * 60000, ⟨rfl, by omega⟩,
      S, ⟨rfl, by omega⟩, S * 1000, ⟨rfl, by omega⟩,
      D * 86400000 + H * 3600000 + M * 60000 + S * 1000, ⟨rfl, by omega⟩,
      by omega, by omega⟩

/-- The checked chain fails exactly when the unbounded total does not fit
in `u64`. -/
theorem calculate_total_ms_eq_none (D H M S msv : Nat) :
    calculate_total_ms (u64Opt D) (u64Opt H) (u64Opt M) (u64Opt S) msv = none ↔
      u64Bound ≤ D * 86400000 + H * 3600000 + M * 60000 + S * 1000 + msv := by
  constructor
  · intro hnone
    by_contra hlt
    push_neg at hlt
    have h2 := (calculate_total_ms_eq D H M S msv _).mpr ⟨rfl, hlt⟩
    rw [hnone] at h2
    exact Option.noConfusion h2
  · intro hge
    cases hc : calculate_total_ms (u64Opt D) (u64Opt H) (u64Opt M) (u64Opt S) msv with
    | none => rfl
    | some v =>
      obtain ⟨hv, hlt⟩ := (calculate_total_ms_eq D H M S msv v).mp hc
      omega

/-- Claim C8: interval parsing succeeds exactly on a nonempty input that
matches the interval grammar, whose fraction has at most millisecond
precision, and whose denoted total is a strictly positive number of whole
milliseconds that fits in `u64` — and then it returns exactly that total.
In particular an input denoting zero milliseconds is rejected, and an
input whose total would overflow `u64` is rejected rather than wrapped. -/
theorem parse_interval_ok_iff (cs : List Char) (t : Nat) :
    parse_interval_as_ms cs = .ok t ↔
      cs ≠ [] ∧ ∃ d h m sec, regexCaptures cs = some (d, h, m, sec) ∧
        fracLen (fCap sec) ≤ 3 ∧ specTotalMs d h m sec = t ∧ 0 < t ∧ t < u64Bound := by
  cases cs with
  | nil => simp [parse_interval_as_ms]
  | cons c cs0 =>
    simp only [parse_interval_as_ms, List.isEmpty_cons, Bool.false_eq_true, if_false,
      ne_eq, reduceCtorEq, not_false_eq_true, true_and]
    cases hrc : regexCaptures (c :: cs0) with
    | none => simp
    | some caps =>
      obtain ⟨d, h, m, sec⟩ := caps
      simp only [Option.some.injEq, Prod.mk.injEq]
      cases hf : convert_fraction_match_to_ms_u64 (fCap sec) with
      | none =>
        have hgt := (convert_fraction_eq_none (fCap sec)).mp hf
        dsimp only
        constructor
        · intro hbad
          exact Except.noConfusion hbad
        · rintro ⟨d', h', m', sec', ⟨⟨rfl, rfl, rfl, rfl⟩, hfl, _⟩⟩
          exact absurd hfl hgt
      | some msv =>
        obtain ⟨hfl, rfl⟩ := (convert_fraction_eq_some (fCap sec) msv).mp hf
        dsimp only
        rw [convert_match_eq d, convert_match_eq h, convert_match_eq m,
          convert_match_eq (sCap sec)]
        cases hcalc : calculate_total_ms (u64Opt (matchVal d)) (u64Opt (matchVal h))
            (u64Opt (matchVal m)) (u64Opt (matchVal (sCap sec))) (fracMsVal (fCap sec)) with
        | none =>
          have hge := (calculate_total_ms_eq_none _ _ _ _ _).mp hcalc
          dsimp only
          constructor
          · intro hbad
            exact Except.noConfusion hbad
          · rintro ⟨d', h', m', sec', ⟨⟨rfl, rfl, rfl, rfl⟩, _, hspec, _, hlt⟩⟩
            rw [specTotalMs] at hspec
            omega
        | some v =>
          obtain ⟨hv, hlt⟩ := (calculate_total_ms_eq _ _ _ _ _ v).mp hcalc
          cases v with
          | zero =>
            dsimp only
            constructor
            · intro hbad
              exact Except.noConfusion hbad
            · rintro ⟨d', h', m', sec', ⟨⟨rfl, rfl, rfl, rfl⟩, _, hspec, hpos, _⟩⟩
              rw [specTotalMs] at hspec
              omega
          | succ n =>
            show (Except.ok (n + 1) : Except IntervalError Nat) = Except.ok t ↔ _
            constructor
            · intro hok
              injection hok with ht
              refine ⟨d, h, m, sec, ⟨rfl, rfl, rfl, rfl⟩, hfl, ?_, ?_, ?_⟩
              · rw [specTotalMs]
                omega
              · omega
              · omega
            · rintro ⟨d', h', m', sec', ⟨⟨rfl, rfl, rfl, rfl⟩, _, hspec, _, _⟩⟩
              rw [specTotalMs] at hspec
              have ht : n + 1 = t := by omega
              rw [ht]

/-- Interval strings accepted by `parse_interval_as_ms` never start with a
dash (the regex requires a leading digit wherever a group matches). -/
theorem parse_ok_not_dash {cs : List Char} {t : Nat}
    (hok : parse_interval_as_ms cs = .ok t) : startsWithDash cs = false := by
  cases cs with
  | nil => rfl
  | cons c cs0 =>
    by_cases hc : c = '-'
    · subst hc
      have hunrec : parse_interval_as_ms ('-' :: cs0)
          = .error (.unrecognized ('-' :: cs0)) := rfl
      rw [hunrec] at hok
      exact Except.noConfusion hok
    · simp [startsWithDash, hc]

/-- Claim C10: a command line with a valid interval and a command name that
is not an option (so the `-c` option is absent) parses to a `Run` action
whose concurrency is the default 1, with the remaining arguments collected
as the arguments of the command. -/
theorem default_concurrency (i cmd : List Char) (rest : List (List Char)) (t : Nat)
    (hi : parse_interval_as_ms i = .ok t) (hcmd : startsWithDash cmd = false) :
    parse_iter (i :: cmd :: rest)
      = .ok (.run { interval_ms := t, concurrency := 1, command := cmd, args := rest }) := by
  have hdash := parse_ok_not_dash hi
  simp only [parse_iter, hdash, hi, hcmd, Bool.false_eq_true, if_false]

/-- Witness for `default_concurrency` on the command line `1s d`. -/
theorem default_concurrency_witness :
    parse_iter [['1', 's'], ['d']]
      = .ok (.run { interval_ms := 1000, concurrency := 1, command := ['d'], args := [] }) :=
  default_concurrency ['1', 's'] ['d'] [] 1000 rfl rfl

end Every
